import Mathlib

/-!
Verification of the move-selection engine in src/game_agent.py: the three
evaluation heuristics, depth-limited minimax, alpha-beta search and the
iterative-deepening driver with its deadline guard.  The board class is an
external collaborator; it is modelled by the interface record GameApi below,
following the collaborator contract of the specification.  Machine floats are
modelled by rationals extended with the two infinities, and the timeout
machinery is modelled by a probe function consulted once per deadline check.
-/

/-- PId identifies one of the two players of a game; the searching agent is one
of them and its opponent is the other. -/
abbrev PId := Bool

/-- Translation of the get_opponent lookup of the collaborator contract: the
opponent relation is state independent and swaps the two players. -/
def opponentOf (p : PId) : PId := !p

/-- Move is a pair of board coordinates. -/
abbrev Move := Int × Int

/-- Sentinel move (-1, -1) meaning that no legal move was produced. -/
def noMove : Move := (-1, -1)

/-- Score models the Python float values flowing through the agent: minus
infinity, plus infinity, and finite values.  The finite values are modelled as
rationals; every claim below either stays in the exactly representable range
of binary floats or does not depend on rounding. -/
abbrev Score := WithBot (WithTop ℚ)

/-- Embedding of a finite rational value as a Score. -/
def sval (q : ℚ) : Score := ((q : WithTop ℚ) : Score)

/-- GameApi is the Game State collaborator required by the engine.  Modelled
from the spec: the board and rules engine is out of scope and only reached
through this narrow interface, which exposes legal move enumeration scoped to
a player, the active player (the no-argument get_legal_moves call of the
source enumerates moves of the active player), forecast of an immutable
successor state, the two terminal predicates, and player locations. -/
structure GameApi (G : Type) where
  legalMovesFor : G → PId → List Move
  active : G → PId
  forecast : G → Move → G
  isLoser : G → PId → Bool
  isWinner : G → PId → Bool
  location : G → PId → Int × Int

/-- Translation of the no-argument get_legal_moves call: moves of the player
currently to move. -/
def GameApi.legalMoves {G : Type} (api : GameApi G) (g : G) : List Move :=
  api.legalMovesFor g (api.active g)

/-- Error raised by a Python evaluation, used for the zero-distance division
in custom_score_2. -/
inductive EvalError where
  | zeroDivision : EvalError
deriving DecidableEq, Repr

/-- Translation of custom_score from src/game_agent.py.  After the terminal
short circuit it accumulates own_moves and opp_moves exactly as the two
imperative loops of the source do.  Note that the second loop of the source
adds the first lookahead level of the opponent to own_moves, and only the
second lookahead level to opp_moves; this translation reproduces that
behaviour verbatim.  The final line returns own_moves - opp_moves * 1.5. -/
def customScore {G : Type} (api : GameApi G) (game : G) (player : PId) : Score :=
  if api.isLoser game player then ⊥
  else if api.isWinner game player then ⊤
  else
    let ownMoves0 := (api.legalMovesFor game player).length
    let oppMoves0 := (api.legalMovesFor game (opponentOf player)).length
    let ownAfterLoop1 := (api.legalMovesFor game player).foldl
      (fun acc mv =>
        let newBoard := api.forecast game mv
        let acc1 := acc + (api.legalMovesFor newBoard player).length
        (api.legalMovesFor newBoard player).foldl
          (fun acc2 mv2 =>
            acc2 + (api.legalMovesFor (api.forecast newBoard mv2) player).length)
          acc1)
      ownMoves0
    let totals := (api.legalMovesFor game (opponentOf player)).foldl
      (fun (st : Nat × Nat) mv =>
        let newBoard := api.forecast game mv
        let ownAcc := st.1 + (api.legalMovesFor newBoard (opponentOf player)).length
        let oppAcc := (api.legalMovesFor newBoard (opponentOf player)).foldl
          (fun acc2 mv2 =>
            acc2 + (api.legalMovesFor (api.forecast newBoard mv2) (opponentOf player)).length)
          st.2
        (ownAcc, oppAcc))
      (ownAfterLoop1, oppMoves0)
    sval ((totals.1 : ℚ) - (totals.2 : ℚ) * 1.5)

/-- Translation of custom_score_2 from src/game_agent.py.  The source divides
the weighted mobility difference by the reciprocal of the Manhattan distance;
with distance zero the Python expression 0.0 raised to the power -1 raises
ZeroDivisionError, which is modelled by the error branch.  For a nonzero
distance the float arithmetic is modelled exactly over the rationals. -/
def customScore2 {G : Type} (api : GameApi G) (game : G) (player : PId) :
    Except EvalError Score :=
  if api.isLoser game player then .ok ⊥
  else if api.isWinner game player then .ok ⊤
  else
    let ownMoves := (api.legalMovesFor game player).length
    let oppMoves := (api.legalMovesFor game (opponentOf player)).length
    let penalizedMoveDiff : ℚ := (ownMoves : ℚ) - 1.5 * (oppMoves : ℚ)
    let ownPos := api.location game player
    let oppPos := api.location game (opponentOf player)
    let manhattanDistance : ℚ :=
      (((ownPos.1 - oppPos.1).natAbs + (ownPos.2 - oppPos.2).natAbs : ℕ) : ℚ)
    if manhattanDistance = 0 then .error .zeroDivision
    else .ok (sval (penalizedMoveDiff / manhattanDistance⁻¹))

/-- Translation of custom_score_3 from src/game_agent.py: the weighted
mobility difference own_moves - opp_moves * 1.5 after the terminal short
circuit. -/
def customScore3 {G : Type} (api : GameApi G) (game : G) (player : PId) : Score :=
  if api.isLoser game player then ⊥
  else if api.isWinner game player then ⊤
  else
    let ownMoves := (api.legalMovesFor game player).length
    let oppMoves := (api.legalMovesFor game (opponentOf player)).length
    sval ((ownMoves : ℚ) - (oppMoves : ℚ) * 1.5)

/-! ## Fixed-depth search, timeout checks factored out

The search methods of the source consult the deadline guard at every entry and
otherwise compute pure values.  The functions in this section are the pure
computations; the timed versions further below perform the deadline checks and
are related to these by bridge lemmas.  Loops over move lists are expressed as
list recursions parametric in the function applied to each forecast child. -/

/-- Loop of MinimaxPlayer.min_value over the move list: value is replaced
whenever a child score is strictly smaller.  The local best_move variable of
the source helper is dead code (the helper returns only value) and is omitted. -/
def minGoP {G : Type} (next : G → Score) (fc : Move → G) :
    Score → List Move → Score
  | v, [] => v
  | v, mv :: ms =>
    minGoP next fc (if next (fc mv) < v then next (fc mv) else v) ms

/-- Loop of MinimaxPlayer.max_value over the move list: value is replaced
whenever a child score is strictly greater. -/
def maxGoP {G : Type} (next : G → Score) (fc : Move → G) :
    Score → List Move → Score
  | v, [] => v
  | v, mv :: ms =>
    maxGoP next fc (if v < next (fc mv) then next (fc mv) else v) ms

mutual

/-- Translation of MinimaxPlayer.min_value (deadline check factored out, see
minValueT): at depth zero the evaluator scores the state, otherwise the
minimizing loop runs over the legal moves of the active player starting from
plus infinity. -/
def minValueP {G : Type} (api : GameApi G) (ev : G → Score) :
    Nat → G → Score
  | 0, g => ev g
  | d + 1, g =>
    minGoP (fun g2 => maxValueP api ev d g2) (api.forecast g) ⊤ (api.legalMoves g)

/-- Translation of MinimaxPlayer.max_value (deadline check factored out, see
maxValueT): at depth zero the evaluator scores the state, otherwise the
maximizing loop runs over the legal moves of the active player starting from
minus infinity. -/
def maxValueP {G : Type} (api : GameApi G) (ev : G → Score) :
    Nat → G → Score
  | 0, g => ev g
  | d + 1, g =>
    maxGoP (fun g2 => minValueP api ev d g2) (api.forecast g) ⊥ (api.legalMoves g)

end

/-- Top-level loop of MinimaxPlayer.minimax, tracking the pair of best_move
and value; the pair is updated exactly on a strict improvement. -/
def mmRootGoP {G : Type} (next : G → Score) (fc : Move → G) :
    Move × Score → List Move → Move × Score
  | bv, [] => bv
  | (bm, v), mv :: ms =>
    mmRootGoP next fc
      (if v < next (fc mv) then (mv, next (fc mv)) else (bm, v)) ms

/-- Translation of MinimaxPlayer.minimax (deadline check factored out, see
minimaxT).  At depth zero the source returns the evaluator score, a float,
modelled by the left summand; otherwise it returns best_move, modelled by the
right summand paired with the final value so that the backed-up root score is
observable (the source returns exactly the first component). -/
def mmSearchP {G : Type} (api : GameApi G) (ev : G → Score) (g : G) :
    Nat → Sum Score (Move × Score)
  | 0 => .inl (ev g)
  | d + 1 =>
    .inr (mmRootGoP (fun g2 => minValueP api ev d g2) (api.forecast g)
      (noMove, ⊥) (api.legalMoves g))

/-- Loop of AlphaBetaPlayer.min_ab_value over the move list.  On a strict
improvement the source returns early once value is at most alpha and
otherwise lowers beta to the minimum of value and beta; without improvement
the state is unchanged. -/
def minAbGoP {G : Type} (next : G → Score → Score → Score) (fc : Move → G)
    (alpha : Score) : Score → Score → List Move → Score
  | v, _, [] => v
  | v, beta, mv :: ms =>
    if next (fc mv) alpha beta < v then
      if next (fc mv) alpha beta ≤ alpha then next (fc mv) alpha beta
      else minAbGoP next fc alpha (next (fc mv) alpha beta)
        (if next (fc mv) alpha beta ≤ beta then next (fc mv) alpha beta else beta) ms
    else minAbGoP next fc alpha v beta ms

/-- Loop of AlphaBetaPlayer.max_ab_value over the move list.  On a strict
improvement the source returns early once value is at least beta and
otherwise raises alpha to the maximum of value and alpha. -/
def maxAbGoP {G : Type} (next : G → Score → Score → Score) (fc : Move → G)
    (beta : Score) : Score → Score → List Move → Score
  | v, _, [] => v
  | v, alpha, mv :: ms =>
    if v < next (fc mv) alpha beta then
      if beta ≤ next (fc mv) alpha beta then next (fc mv) alpha beta
      else maxAbGoP next fc beta (next (fc mv) alpha beta)
        (if alpha ≤ next (fc mv) alpha beta then next (fc mv) alpha beta else alpha) ms
    else maxAbGoP next fc beta v alpha ms

mutual

/-- Translation of AlphaBetaPlayer.min_ab_value (deadline check factored out,
see minAbT). -/
def minAbP {G : Type} (api : GameApi G) (ev : G → Score) :
    Nat → G → Score → Score → Score
  | 0, g, _, _ => ev g
  | d + 1, g, alpha, beta =>
    minAbGoP (fun g2 a b => maxAbP api ev d g2 a b) (api.forecast g) alpha
      ⊤ beta (api.legalMoves g)

/-- Translation of AlphaBetaPlayer.max_ab_value (deadline check factored out,
see maxAbT). -/
def maxAbP {G : Type} (api : GameApi G) (ev : G → Score) :
    Nat → G → Score → Score → Score
  | 0, g, _, _ => ev g
  | d + 1, g, alpha, beta =>
    maxAbGoP (fun g2 a b => minAbP api ev d g2 a b) (api.forecast g) beta
      ⊥ alpha (api.legalMoves g)

end

/-- Top-level loop of AlphaBetaPlayer.alphabeta: identical to the minimax root
loop except that each child call receives the running value as alpha and plus
infinity as beta (the source passes value and the beta it reset to plus
infinity, and never updates its reset alpha). -/
def abRootGoP {G : Type} (next : G → Score → Score → Score) (fc : Move → G) :
    Move × Score → List Move → Move × Score
  | bv, [] => bv
  | (bm, v), mv :: ms =>
    abRootGoP next fc
      (if v < next (fc mv) v ⊤ then (mv, next (fc mv) v ⊤) else (bm, v)) ms

/-- Translation of AlphaBetaPlayer.alphabeta (deadline check factored out, see
alphabetaT).  The caller supplied alpha and beta parameters are immediately
overwritten by the source, alpha to minus infinity and beta to plus infinity,
before any use; consequently the body below does not depend on them.  As with
mmSearchP, the right summand carries the pair of best_move and final value and
the source returns exactly the first component. -/
def abSearchP {G : Type} (api : GameApi G) (ev : G → Score) (g : G)
    (d : Nat) (alpha beta : Score) : Sum Score (Move × Score) :=
  match d with
  | 0 => .inl (ev g)
  | d + 1 =>
    .inr (abRootGoP (fun g2 a b => minAbP api ev d g2 a b) (api.forecast g)
      (noMove, ⊥) (api.legalMoves g))

/-- TriAt is the fail-soft contract of a pruning layer relative to the window
from alpha to beta, where r is the pruned result and t the minimax value. -/
def TriAt (alpha beta r t : Score) : Prop :=
  (r ≤ alpha → t ≤ r) ∧ (alpha < r → r < beta → t = r) ∧ (beta ≤ r → r ≤ t)

/-! ## Timed search with the deadline guard

The probe models the callable time_left of the source: it is consulted once
per deadline check, and the checks are numbered from zero, so the probe is a
function of the number of checks performed so far.  Every search function
threads this counter and raises SearchTimeout when the probed value drops
below the timer threshold, exactly as the first statement of every search
method of the source does. -/

/-- SearchTimeout mirrors the exception class of the source file. -/
inductive SearchTimeout where
  | mk : SearchTimeout
deriving DecidableEq, Repr

/-- TimedResult α is the outcome of a timed computation: either the raised
SearchTimeout or a value together with the updated probe counter. -/
abbrev TimedResult (α : Type) := Except SearchTimeout (α × Nat)

/-- Move projection of a top-level search result: the source returns only
best_move (or the bare score at depth zero). -/
def srMove : Sum Score (Move × Score) → Sum Score Move
  | .inl s => .inl s
  | .inr p => .inr p.1

/-- Timed loop of MinimaxPlayer.min_value over the move list. -/
def minGoT {G : Type} (next : G → Nat → TimedResult Score) (fc : Move → G) :
    Score → Nat → List Move → TimedResult Score
  | v, t, [] => .ok (v, t)
  | v, t, mv :: ms =>
    match next (fc mv) t with
    | .error e => .error e
    | .ok (s, t2) => minGoT next fc (if s < v then s else v) t2 ms

/-- Timed loop of MinimaxPlayer.max_value over the move list. -/
def maxGoT {G : Type} (next : G → Nat → TimedResult Score) (fc : Move → G) :
    Score → Nat → List Move → TimedResult Score
  | v, t, [] => .ok (v, t)
  | v, t, mv :: ms =>
    match next (fc mv) t with
    | .error e => .error e
    | .ok (s, t2) => maxGoT next fc (if v < s then s else v) t2 ms

/-- Timed top-level loop of MinimaxPlayer.minimax. -/
def mmRootGoT {G : Type} (next : G → Nat → TimedResult Score) (fc : Move → G) :
    Move × Score → Nat → List Move → TimedResult (Move × Score)
  | bv, t, [] => .ok (bv, t)
  | (bm, v), t, mv :: ms =>
    match next (fc mv) t with
    | .error e => .error e
    | .ok (s, t2) => mmRootGoT next fc (if v < s then (mv, s) else (bm, v)) t2 ms

/-- Timed loop of AlphaBetaPlayer.min_ab_value over the move list. -/
def minAbGoT {G : Type} (next : G → Score → Score → Nat → TimedResult Score)
    (fc : Move → G) (alpha : Score) :
    Score → Score → Nat → List Move → TimedResult Score
  | v, _, t, [] => .ok (v, t)
  | v, beta, t, mv :: ms =>
    match next (fc mv) alpha beta t with
    | .error e => .error e
    | .ok (s, t2) =>
      if s < v then
        if s ≤ alpha then .ok (s, t2)
        else minAbGoT next fc alpha s (if s ≤ beta then s else beta) t2 ms
      else minAbGoT next fc alpha v beta t2 ms

/-- Timed loop of AlphaBetaPlayer.max_ab_value over the move list. -/
def maxAbGoT {G : Type} (next : G → Score → Score → Nat → TimedResult Score)
    (fc : Move → G) (beta : Score) :
    Score → Score → Nat → List Move → TimedResult Score
  | v, _, t, [] => .ok (v, t)
  | v, alpha, t, mv :: ms =>
    match next (fc mv) alpha beta t with
    | .error e => .error e
    | .ok (s, t2) =>
      if v < s then
        if beta ≤ s then .ok (s, t2)
        else maxAbGoT next fc beta s (if alpha ≤ s then s else alpha) t2 ms
      else maxAbGoT next fc beta v alpha t2 ms

/-- Timed top-level loop of AlphaBetaPlayer.alphabeta: each child receives the
running value as alpha and the reset beta, plus infinity. -/
def abRootGoT {G : Type} (next : G → Score → Score → Nat → TimedResult Score)
    (fc : Move → G) :
    Move × Score → Nat → List Move → TimedResult (Move × Score)
  | bv, t, [] => .ok (bv, t)
  | (bm, v), t, mv :: ms =>
    match next (fc mv) v ⊤ t with
    | .error e => .error e
    | .ok (s, t2) => abRootGoT next fc (if v < s then (mv, s) else (bm, v)) t2 ms

mutual

/-- Translation of MinimaxPlayer.min_value: deadline check at entry, evaluator
at depth zero, otherwise the minimizing loop over the legal moves. -/
def minValueT {G : Type} (api : GameApi G) (ev : G → Score) (thr : ℚ)
    (probe : Nat → ℚ) : Nat → G → Nat → TimedResult Score
  | 0, g, t =>
    if probe t < thr then .error .mk else .ok (ev g, t + 1)
  | d + 1, g, t =>
    if probe t < thr then .error .mk
    else
      minGoT (fun g2 t2 => maxValueT api ev thr probe d g2 t2) (api.forecast g)
        ⊤ (t + 1) (api.legalMoves g)

/-- Translation of MinimaxPlayer.max_value: deadline check at entry, evaluator
at depth zero, otherwise the maximizing loop over the legal moves. -/
def maxValueT {G : Type} (api : GameApi G) (ev : G → Score) (thr : ℚ)
    (probe : Nat → ℚ) : Nat → G → Nat → TimedResult Score
  | 0, g, t =>
    if probe t < thr then .error .mk else .ok (ev g, t + 1)
  | d + 1, g, t =>
    if probe t < thr then .error .mk
    else
      maxGoT (fun g2 t2 => minValueT api ev thr probe d g2 t2) (api.forecast g)
        ⊥ (t + 1) (api.legalMoves g)

end

mutual

/-- Translation of AlphaBetaPlayer.min_ab_value including the deadline check. -/
def minAbT {G : Type} (api : GameApi G) (ev : G → Score) (thr : ℚ)
    (probe : Nat → ℚ) : Nat → G → Score → Score → Nat → TimedResult Score
  | 0, g, _, _, t =>
    if probe t < thr then .error .mk else .ok (ev g, t + 1)
  | d + 1, g, alpha, beta, t =>
    if probe t < thr then .error .mk
    else
      minAbGoT (fun g2 a b t2 => maxAbT api ev thr probe d g2 a b t2)
        (api.forecast g) alpha ⊤ beta (t + 1) (api.legalMoves g)

/-- Translation of AlphaBetaPlayer.max_ab_value including the deadline check. -/
def maxAbT {G : Type} (api : GameApi G) (ev : G → Score) (thr : ℚ)
    (probe : Nat → ℚ) : Nat → G → Score → Score → Nat → TimedResult Score
  | 0, g, _, _, t =>
    if probe t < thr then .error .mk else .ok (ev g, t + 1)
  | d + 1, g, alpha, beta, t =>
    if probe t < thr then .error .mk
    else
      maxAbGoT (fun g2 a b t2 => minAbT api ev thr probe d g2 a b t2)
        (api.forecast g) beta ⊥ alpha (t + 1) (api.legalMoves g)

end

/-- Translation of MinimaxPlayer.minimax including the deadline check.  As in
mmSearchP the right summand carries the pair of best_move and root value; the
source returns best_move alone. -/
def minimaxT {G : Type} (api : GameApi G) (ev : G → Score) (thr : ℚ)
    (probe : Nat → ℚ) (g : G) (d : Nat) (t : Nat) :
    TimedResult (Sum Score (Move × Score)) :=
  if probe t < thr then .error .mk
  else
    match d with
    | 0 => .ok (.inl (ev g), t + 1)
    | d + 1 =>
      match mmRootGoT (fun g2 t2 => minValueT api ev thr probe d g2 t2)
        (api.forecast g) (noMove, ⊥) (t + 1) (api.legalMoves g) with
      | .error e => .error e
      | .ok (p, t2) => .ok (.inr p, t2)

/-- Translation of AlphaBetaPlayer.alphabeta including the deadline check.
The caller supplied alpha and beta are immediately overwritten by the source
and the body below therefore does not depend on them. -/
def alphabetaT {G : Type} (api : GameApi G) (ev : G → Score) (thr : ℚ)
    (probe : Nat → ℚ) (g : G) (d : Nat) (alpha beta : Score) (t : Nat) :
    TimedResult (Sum Score (Move × Score)) :=
  if probe t < thr then .error .mk
  else
    match d with
    | 0 => .ok (.inl (ev g), t + 1)
    | d + 1 =>
      match abRootGoT (fun g2 a b t2 => minAbT api ev thr probe d g2 a b t2)
        (api.forecast g) (noMove, ⊥) (t + 1) (api.legalMoves g) with
      | .error e => .error e
      | .ok (p, t2) => .ok (.inr p, t2)

/-- Translation of MinimaxPlayer.get_move: best_move is initialized to the
sentinel, the fixed-depth search runs once at the configured search depth
with the probe counter starting at zero, and a raised SearchTimeout is caught
so that the sentinel is returned. -/
def getMoveMM {G : Type} (api : GameApi G) (ev : G → Score) (searchDepth : Nat)
    (thr : ℚ) (probe : Nat → ℚ) (g : G) : Sum Score Move :=
  match minimaxT api ev thr probe g searchDepth 0 with
  | .ok (r, _) => srMove r
  | .error _ => .inr noMove

/-- Loop of AlphaBetaPlayer.get_move over the list of depths: every completed
depth overwrites best_move, every raised SearchTimeout breaks the loop.  The
second component records the depths whose search completed without a timeout;
it is ghost instrumentation used to state the deepening-schedule claims and
does not influence the first component, which is what the source computes. -/
def abIterGo {G : Type} (api : GameApi G) (ev : G → Score) (thr : ℚ)
    (probe : Nat → ℚ) (g : G) :
    Sum Score Move → Nat → List Nat → Sum Score Move × List Nat
  | best, _, [] => (best, [])
  | best, t, d :: ds =>
    match alphabetaT api ev thr probe g d ⊥ ⊤ t with
    | .error _ => (best, [])
    | .ok (r, t2) =>
      ((abIterGo api ev thr probe g (srMove r) t2 ds).1,
        d :: (abIterGo api ev thr probe g (srMove r) t2 ds).2)

/-- Translation of AlphaBetaPlayer.get_move together with its trace of
completed depths: the source iterates d over range(1, 500), which is the
depths 1 through 499, starting from the sentinel best_move. -/
def getMoveABPair {G : Type} (api : GameApi G) (ev : G → Score) (thr : ℚ)
    (probe : Nat → ℚ) (g : G) : Sum Score Move × List Nat :=
  abIterGo api ev thr probe g (.inr noMove) 0 (List.range' 1 499)

/-- Move returned by AlphaBetaPlayer.get_move. -/
def getMoveAB {G : Type} (api : GameApi G) (ev : G → Score) (thr : ℚ)
    (probe : Nat → ℚ) (g : G) : Sum Score Move :=
  (getMoveABPair api ev thr probe g).1

/-- AliveProbe states that the probed remaining time never drops below the
threshold, so no deadline check ever raises. -/
def AliveProbe (thr : ℚ) (probe : Nat → ℚ) : Prop := ∀ n, ¬ probe n < thr

/-- Modelled from the spec: the two-ply lookahead mobility heuristic as the
specification words it, for comparison with the source translation
customScore.  The own total sums the own move counts over the current state,
the own immediate successors and their successors two plies deep; the
opponent total sums the opponent move counts over the opponent lookahead
alone; the combination is own minus 1.5 times opp. -/
def customScoreSpec {G : Type} (api : GameApi G) (game : G) (player : PId) : Score :=
  if api.isLoser game player then ⊥
  else if api.isWinner game player then ⊤
  else
    let ownTotal := (api.legalMovesFor game player).length
      + ((api.legalMovesFor game player).map (fun mv =>
          (api.legalMovesFor (api.forecast game mv) player).length
          + ((api.legalMovesFor (api.forecast game mv) player).map (fun mv2 =>
              (api.legalMovesFor (api.forecast (api.forecast game mv) mv2)
                player).length)).sum)).sum
    let oppTotal := (api.legalMovesFor game (opponentOf player)).length
      + ((api.legalMovesFor game (opponentOf player)).map (fun mv =>
          (api.legalMovesFor (api.forecast game mv) (opponentOf player)).length
          + ((api.legalMovesFor (api.forecast game mv) (opponentOf player)).map (fun mv2 =>
              (api.legalMovesFor (api.forecast (api.forecast game mv) mv2)
                (opponentOf player)).length)).sum)).sum
    sval ((ownTotal : ℚ) - 1.5 * (oppTotal : ℚ))

/-- Probe that always reports one hundred milliseconds remaining, far above
the default threshold of ten. -/
def probeAlways : Nat → ℚ := fun _ => 100

/-- Probe that always reports five milliseconds remaining, below the default
threshold of ten, so the very first deadline check raises. -/
def probeLow : Nat → ℚ := fun _ => 5

/-- Game collaborator with no legal moves in any state, over the unit state. -/
def emptyApi : GameApi Unit where
  legalMovesFor := fun _ _ => []
  active := fun _ => false
  forecast := fun _ _ => ()
  isLoser := fun _ _ => false
  isWinner := fun _ _ => false
  location := fun _ _ => (0, 0)

/-- Evaluator assigning the constant finite score forty-two. -/
def ev42 : Unit → Score := fun _ => sval 42

/-- Small synthetic game tree over natural number states: branching varies
with the state, states with residue three modulo seven are dead ends. -/
def treeApi : GameApi Nat where
  legalMovesFor := fun s _ =>
    if s % 7 == 3 then []
    else if s % 5 == 2 then [(1, 0)]
    else [(1, 0), (2, 0), (3, 0)]
  active := fun _ => false
  forecast := fun s mv => s * 4 + mv.1.natAbs
  isLoser := fun _ _ => false
  isWinner := fun _ _ => false
  location := fun _ _ => (0, 0)

/-- Evaluator over the synthetic tree mixing finite values with both
infinities. -/
def treeEv : Nat → Score := fun s =>
  if s % 13 == 1 then ⊥
  else if s % 11 == 4 then ⊤
  else sval (((s * s + 3 * s) % 17 : Nat) : ℚ)

/-- Two terminal states over Bool: state false is a loss for every player and
state true a win. -/
def termApi : GameApi Bool where
  legalMovesFor := fun _ _ => [(0, 0), (1, 1)]
  active := fun _ => false
  forecast := fun s _ => s
  isLoser := fun s _ => !s
  isWinner := fun s _ => s
  location := fun _ _ => (0, 0)

/-- Non-terminal state in which both players sit on the same cell. -/
def samePosApi : GameApi Unit where
  legalMovesFor := fun _ _ => [(0, 0)]
  active := fun _ => false
  forecast := fun _ _ => ()
  isLoser := fun _ _ => false
  isWinner := fun _ _ => false
  location := fun _ _ => (2, 3)

/-- Chain game in which every line of play is lost: state zero has one move
to state one, state one has one move to state two, and the evaluator scores
everything as a certain loss. -/
def loseApi : GameApi Nat where
  legalMovesFor := fun s _ => if s < 2 then [(0, 0)] else []
  active := fun _ => false
  forecast := fun s _ => s + 1
  isLoser := fun _ _ => false
  isWinner := fun _ _ => false
  location := fun _ _ => (0, 0)

/-- Evaluator scoring every state as a certain loss. -/
def evBot : Nat → Score := fun _ => ⊥

/-- Game refuting the claimed bucketing of custom_score: the perspective
player has no moves, the opponent has one move leading to a state with one
further move which then dead-ends. -/
def cs5Api : GameApi Nat where
  legalMovesFor := fun s p =>
    match s, p with
    | 0, true => [(0, 0)]
    | 1, true => [(1, 1)]
    | _, _ => []
  active := fun _ => false
  forecast := fun s _ => s + 1
  isLoser := fun _ _ => false
  isWinner := fun _ _ => false
  location := fun _ _ => (0, 0)

/-! ## Theorems -/

example : sval 3 < (⊤ : Score) := by decide
example : (⊥ : Score) < sval (-5) := by decide
example : ¬ (sval (3/2) < sval (3/2)) := by simp [sval]
example : sval (3/2) < sval (8/3) := by
  simp only [sval]
  rw [WithBot.coe_lt_coe, WithTop.coe_lt_coe]
  norm_num
example : sval 1 ≠ sval (5/2) := by
  simp only [sval, ne_eq, WithBot.coe_inj, WithTop.coe_inj]
  norm_num

/-! ## Equivalence of alpha-beta and minimax

The pruning helpers are fail-soft: relative to a window whose alpha is
strictly below its beta, the value returned either lies strictly inside the
window and then equals the plain minimax value, or lies at or beyond a window
edge and is then a sound one-sided bound on the minimax value.  TriAt states
the three cases; the loop lemmas establish them by induction over the move
list, and abSearchP_eq_mmSearchP ties them together at the root. -/

/-- Result of the pure minimizing loop never exceeds its accumulator. -/
lemma minGoP_le {G : Type} (next : G → Score) (fc : Move → G) :
    ∀ (ms : List Move) (v : Score), minGoP next fc v ms ≤ v := by
  intro ms
  induction ms with
  | nil => intro v; exact le_refl v
  | cons mv ms ih =>
    intro v
    simp only [minGoP]
    by_cases h : next (fc mv) < v
    · rw [if_pos h]
      exact le_trans (ih _) (le_of_lt h)
    · rw [if_neg h]
      exact ih v

/-- Result of the pure maximizing loop is at least its accumulator. -/
lemma le_maxGoP {G : Type} (next : G → Score) (fc : Move → G) :
    ∀ (ms : List Move) (v : Score), v ≤ maxGoP next fc v ms := by
  intro ms
  induction ms with
  | nil => intro v; exact le_refl v
  | cons mv ms ih =>
    intro v
    simp only [maxGoP]
    by_cases h : v < next (fc mv)
    · rw [if_pos h]
      exact le_trans (le_of_lt h) (ih _)
    · rw [if_neg h]
      exact ih v

/-- Fail-soft invariant of the min_ab_value loop.  The running beta of the
source equals min of the original beta and the running value, and the pure
accumulator p agrees with the running value inside the window while bounding
it from above at or beyond beta. -/
lemma minAbGoP_tri {G : Type} (next : G → Score → Score → Score)
    (nextP : G → Score) (fc : Move → G) (alpha beta0 : Score)
    (hab : alpha < beta0)
    (hnext : ∀ g a b, a < b → TriAt a b (next g a b) (nextP g)) :
    ∀ (ms : List Move) (v p : Score), alpha < v →
      (beta0 ≤ v → v ≤ p) → (v < beta0 → p = v) →
      TriAt alpha beta0 (minAbGoP next fc alpha v (min beta0 v) ms)
        (minGoP nextP fc p ms) := by
  intro ms
  induction ms with
  | nil =>
    intro v p hav hvp hpv
    refine ⟨fun h => absurd h (not_le.mpr hav), fun _ h2 => hpv h2, fun h => hvp h⟩
  | cons mv ms ih =>
    intro v p hav hvp hpv
    have hchild : alpha < min beta0 v := lt_min hab hav
    obtain ⟨c1, c2, c3⟩ := hnext (fc mv) alpha (min beta0 v) hchild
    simp only [minAbGoP, minGoP]
    by_cases h1 : next (fc mv) alpha (min beta0 v) < v
    · rw [if_pos h1]
      by_cases h2 : next (fc mv) alpha (min beta0 v) ≤ alpha
      · rw [if_pos h2]
        refine ⟨fun _ => ?_, fun ha => absurd ha (not_lt.mpr h2), fun hb => ?_⟩
        · -- the pure value descends below the cutoff value
          have ht : nextP (fc mv) ≤ next (fc mv) alpha (min beta0 v) := c1 h2
          have hacc : (if nextP (fc mv) < p then nextP (fc mv) else p) ≤
              next (fc mv) alpha (min beta0 v) := by
            by_cases hc : nextP (fc mv) < p
            · rw [if_pos hc]; exact ht
            · rw [if_neg hc]
              exact le_trans (not_lt.mp hc) ht
          exact le_trans (minGoP_le nextP fc ms _) hacc
        · exact absurd hab (not_lt.mpr (le_trans hb h2))
      · rw [if_neg h2]
        have has : alpha < next (fc mv) alpha (min beta0 v) := not_le.mp h2
        have hmin : (if next (fc mv) alpha (min beta0 v) ≤ min beta0 v
            then next (fc mv) alpha (min beta0 v) else min beta0 v) =
            min beta0 (next (fc mv) alpha (min beta0 v)) := by
          rw [← min_def, min_left_comm, min_eq_left (le_of_lt h1)]
        rw [hmin]
        refine ih (next (fc mv) alpha (min beta0 v))
          (if nextP (fc mv) < p then nextP (fc mv) else p) has (fun hb => ?_) (fun hb => ?_)
        · -- at or beyond beta the new value bounds the pure accumulator from below
          have hs3 : min beta0 v ≤ next (fc mv) alpha (min beta0 v) :=
            le_trans (min_le_left _ _) hb
          have ht := c3 hs3
          have hvp2 : v ≤ p := hvp (le_trans hb (le_of_lt h1))
          by_cases hc : nextP (fc mv) < p
          · rw [if_pos hc]; exact ht
          · rw [if_neg hc]
            exact le_trans (le_of_lt h1) hvp2
        · -- inside the window the pure accumulator equals the new value
          have hsmall : next (fc mv) alpha (min beta0 v) < min beta0 v := lt_min hb h1
          have ht := c2 has hsmall
          have hps : next (fc mv) alpha (min beta0 v) < p := by
            by_cases hvb : v < beta0
            · rw [hpv hvb]; exact h1
            · exact lt_of_lt_of_le hb (le_trans (not_lt.mp hvb) (hvp (not_lt.mp hvb)))
          rw [← ht] at hps
          rw [if_pos hps, ht]
    · rw [if_neg h1]
      have hvs : v ≤ next (fc mv) alpha (min beta0 v) := not_lt.mp h1
      refine ih v (if nextP (fc mv) < p then nextP (fc mv) else p) hav (fun hb => ?_) (fun hb => ?_)
      · -- beta0 at most v: the child result is at least the running value
        have hs3 : min beta0 v ≤ next (fc mv) alpha (min beta0 v) :=
          le_trans (min_le_right _ _) hvs
        have ht := c3 hs3
        by_cases hc : nextP (fc mv) < p
        · rw [if_pos hc]; exact le_trans hvs ht
        · rw [if_neg hc]; exact hvp hb
      · -- v below beta0: the child result is at least the running value
        have hs3 : min beta0 v ≤ next (fc mv) alpha (min beta0 v) :=
          le_trans (min_le_right _ _) hvs
        have ht := c3 hs3
        have hnt : ¬ nextP (fc mv) < p := by
          rw [hpv hb]
          exact not_lt.mpr (le_trans hvs ht)
        rw [if_neg hnt]
        exact hpv hb

/-- Fail-soft invariant of the max_ab_value loop, the mirror image of
minAbGoP_tri: the running alpha of the source equals max of the original
alpha and the running value. -/
lemma maxAbGoP_tri {G : Type} (next : G → Score → Score → Score)
    (nextP : G → Score) (fc : Move → G) (alpha0 beta : Score)
    (hab : alpha0 < beta)
    (hnext : ∀ g a b, a < b → TriAt a b (next g a b) (nextP g)) :
    ∀ (ms : List Move) (v p : Score), v < beta →
      (v ≤ alpha0 → p ≤ v) → (alpha0 < v → p = v) →
      TriAt alpha0 beta (maxAbGoP next fc beta v (max alpha0 v) ms)
        (maxGoP nextP fc p ms) := by
  intro ms
  induction ms with
  | nil =>
    intro v p hvb hpv hvp
    exact ⟨fun h => hpv h, fun h1 _ => hvp h1, fun h => absurd h (not_le.mpr hvb)⟩
  | cons mv ms ih =>
    intro v p hvb hpv hvp
    have hchild : max alpha0 v < beta := max_lt hab hvb
    obtain ⟨c1, c2, c3⟩ := hnext (fc mv) (max alpha0 v) beta hchild
    simp only [maxAbGoP, maxGoP]
    by_cases h1 : v < next (fc mv) (max alpha0 v) beta
    · rw [if_pos h1]
      by_cases h2 : beta ≤ next (fc mv) (max alpha0 v) beta
      · rw [if_pos h2]
        refine ⟨fun ha => ?_, fun _ hb => absurd hb (not_lt.mpr h2), fun _ => ?_⟩
        · exact absurd hab (not_lt.mpr (le_trans h2 ha))
        · -- cutoff: the pure value climbs at least to the cutoff value
          have ht := c3 h2
          have hacc : next (fc mv) (max alpha0 v) beta ≤
              (if p < nextP (fc mv) then nextP (fc mv) else p) := by
            by_cases hc : p < nextP (fc mv)
            · rw [if_pos hc]; exact ht
            · rw [if_neg hc]; exact le_trans ht (not_lt.mp hc)
          exact le_trans hacc (le_maxGoP nextP fc ms _)
      · rw [if_neg h2]
        have hsb : next (fc mv) (max alpha0 v) beta < beta := not_le.mp h2
        have hmax : (if max alpha0 v ≤ next (fc mv) (max alpha0 v) beta
            then next (fc mv) (max alpha0 v) beta else max alpha0 v) =
            max alpha0 (next (fc mv) (max alpha0 v) beta) := by
          rw [← max_def, max_assoc, max_eq_right (le_of_lt h1)]
        rw [hmax]
        refine ih (next (fc mv) (max alpha0 v) beta)
          (if p < nextP (fc mv) then nextP (fc mv) else p) hsb
          (fun ha => ?_) (fun ha => ?_)
        · -- below alpha the pure accumulator stays below the new value
          have ht := c1 (le_trans ha (le_max_left _ _))
          by_cases hc : p < nextP (fc mv)
          · rw [if_pos hc]; exact ht
          · rw [if_neg hc]
            exact le_trans (hpv (le_trans (le_of_lt h1) ha)) (le_of_lt h1)
        · -- inside the window the pure accumulator equals the new value
          have ht := c2 (max_lt ha h1) hsb
          have hps : p < next (fc mv) (max alpha0 v) beta := by
            by_cases hva : alpha0 < v
            · rw [hvp hva]; exact h1
            · exact lt_of_le_of_lt (hpv (not_lt.mp hva)) h1
          rw [← ht] at hps
          rw [if_pos hps, ht]
    · rw [if_neg h1]
      have hsv : next (fc mv) (max alpha0 v) beta ≤ v := not_lt.mp h1
      have ht := c1 (le_trans hsv (le_max_right _ _))
      refine ih v (if p < nextP (fc mv) then nextP (fc mv) else p) hvb
        (fun ha => ?_) (fun ha => ?_)
      · by_cases hc : p < nextP (fc mv)
        · rw [if_pos hc]; exact le_trans ht hsv
        · rw [if_neg hc]; exact hpv ha
      · have hnt : ¬ p < nextP (fc mv) := by
          rw [hvp ha]
          exact not_lt.mpr (le_trans ht hsv)
        rw [if_neg hnt]
        exact hvp ha

/-- Fail-soft contract of the two alpha-beta helpers at every depth, proved by
induction on depth with the two loop invariants. -/
lemma abP_triAt {G : Type} (api : GameApi G) (ev : G → Score) :
    ∀ (d : Nat) (g : G) (alpha beta : Score), alpha < beta →
      TriAt alpha beta (minAbP api ev d g alpha beta) (minValueP api ev d g) ∧
      TriAt alpha beta (maxAbP api ev d g alpha beta) (maxValueP api ev d g) := by
  intro d
  induction d with
  | zero =>
    intro g alpha beta _
    constructor
    · exact ⟨fun _ => le_refl _, fun _ _ => rfl, fun _ => le_refl _⟩
    · exact ⟨fun _ => le_refl _, fun _ _ => rfl, fun _ => le_refl _⟩
  | succ d ih =>
    intro g alpha beta h
    constructor
    · simp only [minAbP, minValueP]
      have hstart := minAbGoP_tri (fun g2 a b => maxAbP api ev d g2 a b)
        (fun g2 => maxValueP api ev d g2) (api.forecast g) alpha beta h
        (fun g2 a b hab2 => (ih g2 a b hab2).2) (api.legalMoves g) ⊤ ⊤
        (lt_of_lt_of_le h le_top) (fun _ => le_refl _)
        (fun hc => absurd hc not_top_lt)
      rwa [min_eq_left le_top] at hstart
    · simp only [maxAbP, maxValueP]
      have hstart := maxAbGoP_tri (fun g2 a b => minAbP api ev d g2 a b)
        (fun g2 => minValueP api ev d g2) (api.forecast g) alpha beta h
        (fun g2 a b hab2 => (ih g2 a b hab2).1) (api.legalMoves g) ⊥ ⊥
        (lt_of_le_of_lt bot_le h) (fun _ => le_refl _)
        (fun hc => absurd hc (not_lt_bot))
      rwa [max_eq_left bot_le] at hstart

/-- The two root loops perform exactly the same updates: a child call whose
result strictly exceeds the running value is exact by the fail-soft contract
(its window is the running value up to plus infinity), and a child call whose
result does not exceed it bounds the plain minimax value from above, so
neither loop updates. -/
lemma abRootGoP_eq_mmRootGoP {G : Type} (next : G → Score → Score → Score)
    (nextP : G → Score) (fc : Move → G)
    (hnext : ∀ g a b, a < b → TriAt a b (next g a b) (nextP g)) :
    ∀ (ms : List Move) (bv : Move × Score),
      abRootGoP next fc bv ms = mmRootGoP nextP fc bv ms := by
  intro ms
  induction ms with
  | nil => intro bv; rfl
  | cons mv ms ih =>
    intro bv
    obtain ⟨bm, v⟩ := bv
    simp only [abRootGoP, mmRootGoP]
    by_cases hv : v < ⊤
    · obtain ⟨c1, c2, c3⟩ := hnext (fc mv) v ⊤ hv
      by_cases h1 : v < next (fc mv) v ⊤
      · rw [if_pos h1]
        by_cases h2 : next (fc mv) v ⊤ < ⊤
        · have ht := c2 h1 h2
          rw [ht, if_pos h1]
          exact ih _
        · have hstop : next (fc mv) v ⊤ = ⊤ := top_unique (not_lt.mp h2)
          have ht : nextP (fc mv) = ⊤ :=
            top_unique (hstop ▸ c3 (le_of_eq hstop.symm))
          rw [hstop, ht, if_pos hv]
          exact ih _
      · rw [if_neg h1]
        have ht : nextP (fc mv) ≤ v := le_trans (c1 (not_lt.mp h1)) (not_lt.mp h1)
        rw [if_neg (not_lt.mpr ht)]
        exact ih _
    · have hveq : v = ⊤ := top_unique (not_lt.mp hv)
      subst hveq
      rw [if_neg (not_top_lt), if_neg (not_top_lt)]
      exact ih _

/-- Alpha-beta search and plain minimax coincide on every state, every depth
and arbitrary caller supplied bounds: same backed-up root score, same chosen
move.  The bounds are irrelevant because the source overwrites them. -/
lemma abSearchP_eq_mmSearchP {G : Type} (api : GameApi G) (ev : G → Score)
    (g : G) (d : Nat) (alpha beta : Score) :
    abSearchP api ev g d alpha beta = mmSearchP api ev g d := by
  match d with
  | 0 => rfl
  | d + 1 =>
    simp only [abSearchP, mmSearchP]
    rw [abRootGoP_eq_mmRootGoP (fun g2 a b => minAbP api ev d g2 a b)
      (fun g2 => minValueP api ev d g2) (api.forecast g)
      (fun g2 a b hab2 => (abP_triAt api ev d g2 a b hab2).1)]

/-! ## Bridge lemmas: with a live probe the timed search computes the pure one -/

/-- Bridge for the timed minimizing loop. -/
lemma minGoT_bridge {G : Type} (nextT : G → Nat → TimedResult Score)
    (next : G → Score) (fc : Move → G)
    (hb : ∀ g t, ∃ t2, nextT g t = .ok (next g, t2)) :
    ∀ (ms : List Move) (v : Score) (t : Nat),
      ∃ t2, minGoT nextT fc v t ms = .ok (minGoP next fc v ms, t2) := by
  intro ms
  induction ms with
  | nil => intro v t; exact ⟨t, rfl⟩
  | cons mv ms ih =>
    intro v t
    obtain ⟨t2, h⟩ := hb (fc mv) t
    simp only [minGoT, minGoP, h]
    exact ih _ t2

/-- Bridge for the timed maximizing loop. -/
lemma maxGoT_bridge {G : Type} (nextT : G → Nat → TimedResult Score)
    (next : G → Score) (fc : Move → G)
    (hb : ∀ g t, ∃ t2, nextT g t = .ok (next g, t2)) :
    ∀ (ms : List Move) (v : Score) (t : Nat),
      ∃ t2, maxGoT nextT fc v t ms = .ok (maxGoP next fc v ms, t2) := by
  intro ms
  induction ms with
  | nil => intro v t; exact ⟨t, rfl⟩
  | cons mv ms ih =>
    intro v t
    obtain ⟨t2, h⟩ := hb (fc mv) t
    simp only [maxGoT, maxGoP, h]
    exact ih _ t2

/-- Bridge for the timed minimax root loop. -/
lemma mmRootGoT_bridge {G : Type} (nextT : G → Nat → TimedResult Score)
    (next : G → Score) (fc : Move → G)
    (hb : ∀ g t, ∃ t2, nextT g t = .ok (next g, t2)) :
    ∀ (ms : List Move) (bv : Move × Score) (t : Nat),
      ∃ t2, mmRootGoT nextT fc bv t ms = .ok (mmRootGoP next fc bv ms, t2) := by
  intro ms
  induction ms with
  | nil => intro bv t; exact ⟨t, rfl⟩
  | cons mv ms ih =>
    intro bv t
    obtain ⟨bm, v⟩ := bv
    obtain ⟨t2, h⟩ := hb (fc mv) t
    simp only [mmRootGoT, mmRootGoP, h]
    exact ih _ t2

/-- Bridge for the timed min_ab_value loop. -/
lemma minAbGoT_bridge {G : Type}
    (nextT : G → Score → Score → Nat → TimedResult Score)
    (next : G → Score → Score → Score) (fc : Move → G) (alpha : Score)
    (hb : ∀ g a b t, ∃ t2, nextT g a b t = .ok (next g a b, t2)) :
    ∀ (ms : List Move) (v beta : Score) (t : Nat),
      ∃ t2, minAbGoT nextT fc alpha v beta t ms =
        .ok (minAbGoP next fc alpha v beta ms, t2) := by
  intro ms
  induction ms with
  | nil => intro v beta t; exact ⟨t, rfl⟩
  | cons mv ms ih =>
    intro v beta t
    obtain ⟨t2, h⟩ := hb (fc mv) alpha beta t
    simp only [minAbGoT, minAbGoP, h]
    by_cases h1 : next (fc mv) alpha beta < v
    · simp only [if_pos h1]
      by_cases h2 : next (fc mv) alpha beta ≤ alpha
      · simp only [if_pos h2]
        exact ⟨t2, rfl⟩
      · simp only [if_neg h2]
        exact ih _ _ t2
    · simp only [if_neg h1]
      exact ih _ _ t2

/-- Bridge for the timed max_ab_value loop. -/
lemma maxAbGoT_bridge {G : Type}
    (nextT : G → Score → Score → Nat → TimedResult Score)
    (next : G → Score → Score → Score) (fc : Move → G) (beta : Score)
    (hb : ∀ g a b t, ∃ t2, nextT g a b t = .ok (next g a b, t2)) :
    ∀ (ms : List Move) (v alpha : Score) (t : Nat),
      ∃ t2, maxAbGoT nextT fc beta v alpha t ms =
        .ok (maxAbGoP next fc beta v alpha ms, t2) := by
  intro ms
  induction ms with
  | nil => intro v alpha t; exact ⟨t, rfl⟩
  | cons mv ms ih =>
    intro v alpha t
    obtain ⟨t2, h⟩ := hb (fc mv) alpha beta t
    simp only [maxAbGoT, maxAbGoP, h]
    by_cases h1 : v < next (fc mv) alpha beta
    · simp only [if_pos h1]
      by_cases h2 : beta ≤ next (fc mv) alpha beta
      · simp only [if_pos h2]
        exact ⟨t2, rfl⟩
      · simp only [if_neg h2]
        exact ih _ _ t2
    · simp only [if_neg h1]
      exact ih _ _ t2

/-- Bridge for the timed alphabeta root loop. -/
lemma abRootGoT_bridge {G : Type}
    (nextT : G → Score → Score → Nat → TimedResult Score)
    (next : G → Score → Score → Score) (fc : Move → G)
    (hb : ∀ g a b t, ∃ t2, nextT g a b t = .ok (next g a b, t2)) :
    ∀ (ms : List Move) (bv : Move × Score) (t : Nat),
      ∃ t2, abRootGoT nextT fc bv t ms = .ok (abRootGoP next fc bv ms, t2) := by
  intro ms
  induction ms with
  | nil => intro bv t; exact ⟨t, rfl⟩
  | cons mv ms ih =>
    intro bv t
    obtain ⟨bm, v⟩ := bv
    obtain ⟨t2, h⟩ := hb (fc mv) v ⊤ t
    simp only [abRootGoT, abRootGoP, h]
    exact ih _ t2

/-- Bridge for the two minimax helpers at every depth. -/
lemma valueT_bridge {G : Type} (api : GameApi G) (ev : G → Score) (thr : ℚ)
    (probe : Nat → ℚ) (ha : AliveProbe thr probe) :
    ∀ (d : Nat) (g : G) (t : Nat),
      (∃ t2, minValueT api ev thr probe d g t = .ok (minValueP api ev d g, t2)) ∧
      (∃ t2, maxValueT api ev thr probe d g t = .ok (maxValueP api ev d g, t2)) := by
  intro d
  induction d with
  | zero =>
    intro g t
    constructor
    · exact ⟨t + 1, by simp only [minValueT, minValueP, if_neg (ha t)]⟩
    · exact ⟨t + 1, by simp only [maxValueT, maxValueP, if_neg (ha t)]⟩
  | succ d ih =>
    intro g t
    constructor
    · simp only [minValueT, minValueP, if_neg (ha t)]
      exact minGoT_bridge _ _ _ (fun g2 t2 => (ih g2 t2).2) (api.legalMoves g) ⊤ (t + 1)
    · simp only [maxValueT, maxValueP, if_neg (ha t)]
      exact maxGoT_bridge _ _ _ (fun g2 t2 => (ih g2 t2).1) (api.legalMoves g) ⊥ (t + 1)

/-- Bridge for the two alpha-beta helpers at every depth. -/
lemma abT_bridge {G : Type} (api : GameApi G) (ev : G → Score) (thr : ℚ)
    (probe : Nat → ℚ) (ha : AliveProbe thr probe) :
    ∀ (d : Nat) (g : G) (alpha beta : Score) (t : Nat),
      (∃ t2, minAbT api ev thr probe d g alpha beta t =
        .ok (minAbP api ev d g alpha beta, t2)) ∧
      (∃ t2, maxAbT api ev thr probe d g alpha beta t =
        .ok (maxAbP api ev d g alpha beta, t2)) := by
  intro d
  induction d with
  | zero =>
    intro g alpha beta t
    constructor
    · exact ⟨t + 1, by simp only [minAbT, minAbP, if_neg (ha t)]⟩
    · exact ⟨t + 1, by simp only [maxAbT, maxAbP, if_neg (ha t)]⟩
  | succ d ih =>
    intro g alpha beta t
    constructor
    · simp only [minAbT, minAbP, if_neg (ha t)]
      exact minAbGoT_bridge _ _ _ _ (fun g2 a b t2 => (ih g2 a b t2).2)
        (api.legalMoves g) ⊤ beta (t + 1)
    · simp only [maxAbT, maxAbP, if_neg (ha t)]
      exact maxAbGoT_bridge _ _ _ _ (fun g2 a b t2 => (ih g2 a b t2).1)
        (api.legalMoves g) ⊥ alpha (t + 1)

/-- Bridge for the top-level minimax search. -/
lemma minimaxT_bridge {G : Type} (api : GameApi G) (ev : G → Score) (thr : ℚ)
    (probe : Nat → ℚ) (ha : AliveProbe thr probe) (g : G) (d : Nat) (t : Nat) :
    ∃ t2, minimaxT api ev thr probe g d t = .ok (mmSearchP api ev g d, t2) := by
  match d with
  | 0 => exact ⟨t + 1, by simp only [minimaxT, mmSearchP, if_neg (ha t)]⟩
  | d + 1 =>
    obtain ⟨t2, h⟩ := mmRootGoT_bridge
      (fun g2 t2 => minValueT api ev thr probe d g2 t2)
      (fun g2 => minValueP api ev d g2) (api.forecast g)
      (fun g2 t2 => (valueT_bridge api ev thr probe ha d g2 t2).1)
      (api.legalMoves g) (noMove, ⊥) (t + 1)
    exact ⟨t2, by simp only [minimaxT, mmSearchP, if_neg (ha t), h]⟩

/-- Bridge for the top-level alphabeta search. -/
lemma alphabetaT_bridge {G : Type} (api : GameApi G) (ev : G → Score) (thr : ℚ)
    (probe : Nat → ℚ) (ha : AliveProbe thr probe) (g : G) (d : Nat)
    (alpha beta : Score) (t : Nat) :
    ∃ t2, alphabetaT api ev thr probe g d alpha beta t =
      .ok (abSearchP api ev g d alpha beta, t2) := by
  match d with
  | 0 => exact ⟨t + 1, by simp only [alphabetaT, abSearchP, if_neg (ha t)]⟩
  | d + 1 =>
    obtain ⟨t2, h⟩ := abRootGoT_bridge
      (fun g2 a b t2 => minAbT api ev thr probe d g2 a b t2)
      (fun g2 a b => minAbP api ev d g2 a b) (api.forecast g)
      (fun g2 a b t2 => (abT_bridge api ev thr probe ha d g2 a b t2).1)
      (api.legalMoves g) (noMove, ⊥) (t + 1)
    exact ⟨t2, by simp only [alphabetaT, abSearchP, if_neg (ha t), h]⟩

/-- With a live probe the deepening loop completes every depth of its list and
records it in the trace. -/
lemma abIterGo_trace {G : Type} (api : GameApi G) (ev : G → Score) (thr : ℚ)
    (probe : Nat → ℚ) (g : G) (ha : AliveProbe thr probe) :
    ∀ (ds : List Nat) (best : Sum Score Move) (t : Nat),
      (abIterGo api ev thr probe g best t ds).2 = ds := by
  intro ds
  induction ds with
  | nil => intro best t; rfl
  | cons d ds ih =>
    intro best t
    obtain ⟨t2, h⟩ := alphabetaT_bridge api ev thr probe ha g d ⊥ ⊤ t
    simp only [abIterGo, h]
    rw [ih]

/-- With the move list empty the alphabeta search performs its single entry
deadline check, skips the loop entirely and returns the initialized sentinel
pair: the counter advances exactly once, so no recursive helper ran. -/
lemma alphabetaT_nomoves {G : Type} (api : GameApi G) (ev : G → Score)
    (thr : ℚ) (probe : Nat → ℚ) (g : G) (hmv : api.legalMoves g = [])
    (d t : Nat) (alpha beta : Score) (hp : ¬ probe t < thr) :
    alphabetaT api ev thr probe g (d + 1) alpha beta t =
      .ok (.inr (noMove, ⊥), t + 1) := by
  simp only [alphabetaT, if_neg hp, hmv]
  rfl

/-- On a state without legal moves the deepening loop never changes the
sentinel best move, whatever the probe does. -/
lemma abIterGo_nomoves {G : Type} (api : GameApi G) (ev : G → Score)
    (thr : ℚ) (probe : Nat → ℚ) (g : G) (hmv : api.legalMoves g = []) :
    ∀ (ds : List Nat), (∀ d ∈ ds, 1 ≤ d) → ∀ (t : Nat),
      (abIterGo api ev thr probe g (.inr noMove) t ds).1 = .inr noMove := by
  intro ds
  induction ds with
  | nil => intro _ t; rfl
  | cons d ds ih =>
    intro hds t
    by_cases hp : probe t < thr
    · have herr : alphabetaT api ev thr probe g d ⊥ ⊤ t = .error .mk := by
        simp only [alphabetaT, if_pos hp]
      simp only [abIterGo, herr]
    · obtain ⟨d2, rfl⟩ : ∃ d2, d = d2 + 1 := by
        have := hds d (List.mem_cons_self d ds)
        exact ⟨d - 1, by omega⟩
      have hok := alphabetaT_nomoves api ev thr probe g hmv d2 t ⊥ ⊤ hp
      simp only [abIterGo, hok, srMove]
      exact ih (fun m hm => hds m (List.mem_cons_of_mem _ hm)) (t + 1)

/-- The root minimax loop never leaves its initial pair when every child score
is minus infinity, because an update requires a strict improvement. -/
lemma mmRootGoP_all_bot {G : Type} (next : G → Score) (fc : Move → G) :
    ∀ (ms : List Move) (bm : Move), (∀ mv ∈ ms, next (fc mv) = ⊥) →
      mmRootGoP next fc (bm, ⊥) ms = (bm, ⊥) := by
  intro ms
  induction ms with
  | nil => intro bm _; rfl
  | cons mv ms ih =>
    intro bm h
    simp only [mmRootGoP]
    rw [h mv (List.mem_cons_self mv ms), if_neg (lt_irrefl ⊥)]
    exact ih bm (fun m hm => h m (List.mem_cons_of_mem mv hm))

/-- Left fold of repeated addition is the starting value plus a mapped sum. -/
lemma foldl_add_sum {α : Type} (f : α → Nat) :
    ∀ (l : List α) (n : Nat),
      l.foldl (fun a x => a + f x) n = n + (l.map f).sum := by
  intro l
  induction l with
  | nil => intro n; simp
  | cons x l ih =>
    intro n
    simp only [List.foldl_cons, List.map_cons, List.sum_cons, ih]
    omega

/-- Left fold of the nested own-count accumulation of custom_score. -/
lemma foldl_add_sum2 {α β : Type} (h : α → Nat) (l2 : α → List β)
    (g : α → β → Nat) :
    ∀ (l : List α) (n : Nat),
      l.foldl (fun acc x => (l2 x).foldl (fun a2 y => a2 + g x y) (acc + h x)) n =
        n + (l.map (fun x => h x + ((l2 x).map (g x)).sum)).sum := by
  intro l
  induction l with
  | nil => intro n; simp
  | cons x l ih =>
    intro n
    simp only [List.foldl_cons, List.map_cons, List.sum_cons]
    rw [foldl_add_sum (g x), ih]
    omega

/-- Left fold of the paired accumulation of the second loop of custom_score:
the components accumulate independently. -/
lemma foldl_pair_sum {α β : Type} (h : α → Nat) (l2 : α → List β)
    (g : α → β → Nat) :
    ∀ (l : List α) (a b : Nat),
      l.foldl (fun (st : Nat × Nat) x =>
        (st.1 + h x, (l2 x).foldl (fun a2 y => a2 + g x y) st.2)) (a, b) =
      (a + (l.map h).sum, b + (l.map (fun x => ((l2 x).map (g x)).sum)).sum) := by
  intro l
  induction l with
  | nil => intro a b; simp
  | cons x l ih =>
    intro a b
    simp only [List.foldl_cons, List.map_cons, List.sum_cons]
    rw [foldl_add_sum (g x), ih, Prod.mk.injEq]
    exact ⟨by omega, by omega⟩

/-! ## Claim theorems -/

/-- C1: on the same state, the same depth of at least one and the same
evaluator, minimax and alphabeta (with its default bounds) back up equal root
scores, and with the legal moves enumerated in the same order the first-seen
strict-improvement tie-break makes the chosen moves identical: the two timed
searches return the very same pair of move and score whenever the deadline
guard never fires. -/
theorem claim_C1_alphabeta_matches_minimax {G : Type} (api : GameApi G)
    (ev : G → Score) (thr : ℚ) (probe : Nat → ℚ) (g : G) (d : Nat)
    (ha : AliveProbe thr probe) :
    ∃ (mv : Move) (sc : Score) (t1 t2 : Nat),
      minimaxT api ev thr probe g (d + 1) 0 = .ok (.inr (mv, sc), t1) ∧
      alphabetaT api ev thr probe g (d + 1) ⊥ ⊤ 0 = .ok (.inr (mv, sc), t2) := by
  obtain ⟨t1, h1⟩ := minimaxT_bridge api ev thr probe ha g (d + 1) 0
  obtain ⟨t2, h2⟩ := alphabetaT_bridge api ev thr probe ha g (d + 1) ⊥ ⊤ 0
  rw [abSearchP_eq_mmSearchP] at h2
  refine ⟨(mmRootGoP (fun g2 => minValueP api ev d g2) (api.forecast g)
      (noMove, ⊥) (api.legalMoves g)).1,
    (mmRootGoP (fun g2 => minValueP api ev d g2) (api.forecast g)
      (noMove, ⊥) (api.legalMoves g)).2, t1, t2, ?_, ?_⟩
  · rw [h1]
    simp only [mmSearchP, Prod.mk.eta]
  · rw [h2]
    simp only [mmSearchP, Prod.mk.eta]

/-- Witness for C1 on a concrete synthetic game at depth three with a probe
that never fires. -/
theorem claim_C1_witness :
    AliveProbe 10 probeAlways ∧
    ∃ (mv : Move) (sc : Score) (t1 t2 : Nat),
      minimaxT treeApi treeEv 10 probeAlways 0 3 0 = .ok (.inr (mv, sc), t1) ∧
      alphabetaT treeApi treeEv 10 probeAlways 0 3 ⊥ ⊤ 0 = .ok (.inr (mv, sc), t2) :=
  ⟨fun n => by norm_num [probeAlways],
    claim_C1_alphabeta_matches_minimax treeApi treeEv 10 probeAlways 0 2
      (fun n => by norm_num [probeAlways])⟩

/-- C2: a SearchTimeout raised inside the search never escapes get_move (the
translation catches it and returns a move value), and when the probe is below
the threshold at the very first check both players answer the no-move
sentinel. -/
theorem claim_C2_timeout_caught {G : Type} (api : GameApi G) (ev : G → Score)
    (searchDepth : Nat) (thr : ℚ) (probe : Nat → ℚ) (g : G)
    (h : probe 0 < thr) :
    getMoveMM api ev searchDepth thr probe g = .inr noMove ∧
    getMoveAB api ev thr probe g = .inr noMove := by
  constructor
  · simp only [getMoveMM, minimaxT, if_pos h]
  · have herr : alphabetaT api ev thr probe g 1 ⊥ ⊤ 0 = .error .mk := by
      simp only [alphabetaT, if_pos h]
    show (abIterGo api ev thr probe g (.inr noMove) 0 (List.range' 1 499)).1 =
      .inr noMove
    rw [show (499 : Nat) = 498 + 1 from rfl, List.range'_succ]
    simp only [abIterGo, herr]

/-- Witness for C2 with the low probe, which reports five milliseconds below
the threshold of ten from the first check on. -/
theorem claim_C2_witness :
    probeLow 0 < 10 ∧
    getMoveMM treeApi treeEv 3 10 probeLow 0 = .inr noMove ∧
    getMoveAB treeApi treeEv 10 probeLow 0 = .inr noMove :=
  ⟨by norm_num [probeLow],
    claim_C2_timeout_caught treeApi treeEv 3 10 probeLow 0 (by norm_num [probeLow])⟩

/-- C3 counterexample: with a probe that never fires, no timeout ever occurs,
yet depth five hundred is never searched, because the driver iterates d over
range(1, 500); the claimed absence of a fixed upper bound is false. -/
theorem claim_C3_counterexample :
    AliveProbe 10 probeAlways ∧
    (500 : Nat) ∉ (getMoveABPair emptyApi ev42 10 probeAlways ()).2 := by
  have ha : AliveProbe 10 probeAlways := fun n => by norm_num [probeAlways]
  refine ⟨ha, ?_⟩
  show (500 : Nat) ∉
    (abIterGo emptyApi ev42 10 probeAlways () (.inr noMove) 0 (List.range' 1 499)).2
  rw [abIterGo_trace emptyApi ev42 10 probeAlways () ha]
  intro hmem
  have := List.mem_range'_1.mp hmem
  omega

/-- C3 amended: the deepening driver searches exactly the depths one through
four hundred ninety-nine when no timeout fires; the schedule is the fixed
range of the source loop, not an unbounded sequence. -/
theorem claim_C3_amended {G : Type} (api : GameApi G) (ev : G → Score)
    (thr : ℚ) (probe : Nat → ℚ) (g : G) (ha : AliveProbe thr probe) :
    (getMoveABPair api ev thr probe g).2 = List.range' 1 499 :=
  abIterGo_trace api ev thr probe g ha (List.range' 1 499) (.inr noMove) 0

/-- Witness for the amended C3 on a concrete game and probe. -/
theorem claim_C3_witness :
    AliveProbe 10 probeAlways ∧
    (getMoveABPair emptyApi ev42 10 probeAlways ()).2 = List.range' 1 499 :=
  ⟨fun n => by norm_num [probeAlways],
    claim_C3_amended emptyApi ev42 10 probeAlways ()
      (fun n => by norm_num [probeAlways])⟩

/-- C4 counterexample: on a moveless state at depth one the minimizing layer
returns plus infinity, the initial value of its loop, not the score of the
installed evaluator, which here answers forty-two. -/
theorem claim_C4_counterexample :
    minValueP emptyApi ev42 1 () ≠ ev42 () := by
  decide

/-- C4 amended: on a state with zero legal moves and positive depth the two
minimizing layers return plus infinity and the two maximizing layers minus
infinity, the untouched initial values of their loops; the evaluator is not
consulted (for the shipped terminal-aware evaluators these values coincide
with the evaluator score, because a moveless active player has lost). -/
theorem claim_C4_amended {G : Type} (api : GameApi G) (ev : G → Score) (g : G)
    (d : Nat) (alpha beta : Score) (hmv : api.legalMoves g = []) :
    minValueP api ev (d + 1) g = ⊤ ∧ maxValueP api ev (d + 1) g = ⊥ ∧
    minAbP api ev (d + 1) g alpha beta = ⊤ ∧
    maxAbP api ev (d + 1) g alpha beta = ⊥ := by
  refine ⟨?_, ?_, ?_, ?_⟩
  · simp only [minValueP, hmv, minGoP]
  · simp only [maxValueP, hmv, maxGoP]
  · simp only [minAbP, hmv, minAbGoP]
  · simp only [maxAbP, hmv, maxAbGoP]

/-- Witness for the amended C4 on the moveless game. -/
theorem claim_C4_witness :
    emptyApi.legalMoves () = [] ∧
    (minValueP emptyApi ev42 1 () = ⊤ ∧ maxValueP emptyApi ev42 1 () = ⊥ ∧
      minAbP emptyApi ev42 1 () (sval 0) (sval 5) = ⊤ ∧
      maxAbP emptyApi ev42 1 () (sval 0) (sval 5) = ⊥) :=
  ⟨rfl, claim_C4_amended emptyApi ev42 () 0 (sval 0) (sval 5) rfl⟩

/-- C6 counterexample: at a concrete state and depth the timed alphabeta
search gives literally the same outcome, probe consumption included, for
every pair of caller supplied bounds as for the unbounded call, because the
source overwrites alpha and beta on entry; no bounds make the search outcome
or pruning behaviour differ. -/
theorem claim_C6_counterexample :
    ¬ ∃ (a b : Score), alphabetaT treeApi treeEv 10 probeAlways 0 2 a b 0 ≠
      alphabetaT treeApi treeEv 10 probeAlways 0 2 ⊥ ⊤ 0 := by
  rintro ⟨a, b, hne⟩
  exact hne rfl

/-- C6 amended: the caller supplied bounds are overwritten at the top of
alphabeta, so the search result does not depend on them at all, and with the
bounds thus reset the search coincides with plain minimax on every state and
depth. -/
theorem claim_C6_amended {G : Type} (api : GameApi G) (ev : G → Score) (g : G)
    (d : Nat) (a b a2 b2 : Score) :
    abSearchP api ev g d a b = abSearchP api ev g d a2 b2 ∧
    abSearchP api ev g d a b = mmSearchP api ev g d :=
  ⟨rfl, abSearchP_eq_mmSearchP api ev g d a b⟩

/-- C7: each of the three evaluators short-circuits before any move
enumeration: a confirmed loser scores minus infinity and a confirmed winner
plus infinity, whatever the mobility counts are. -/
theorem claim_C7_terminal_shortcircuit {G : Type} (api : GameApi G) (g : G)
    (p : PId) :
    (api.isLoser g p = true →
      customScore api g p = ⊥ ∧ customScore2 api g p = .ok ⊥ ∧
      customScore3 api g p = ⊥) ∧
    (api.isLoser g p = false → api.isWinner g p = true →
      customScore api g p = ⊤ ∧ customScore2 api g p = .ok ⊤ ∧
      customScore3 api g p = ⊤) := by
  constructor
  · intro h
    refine ⟨?_, ?_, ?_⟩ <;>
      simp only [customScore, customScore2, customScore3, h, if_true]
  · intro hl hw
    refine ⟨?_, ?_, ?_⟩ <;>
      simp only [customScore, customScore2, customScore3, hl, hw,
        Bool.false_eq_true, if_false, if_true]

/-- Witness for C7 at a concrete losing state and a concrete winning state. -/
theorem claim_C7_witness :
    (customScore termApi false false = ⊥ ∧
      customScore2 termApi false false = .ok ⊥ ∧
      customScore3 termApi false false = ⊥) ∧
    (customScore termApi true false = ⊤ ∧
      customScore2 termApi true false = .ok ⊤ ∧
      customScore3 termApi true false = ⊤) :=
  ⟨(claim_C7_terminal_shortcircuit termApi false false).1 rfl,
    (claim_C7_terminal_shortcircuit termApi true false).2 rfl rfl⟩

/-- C8: on a state with zero legal moves and a probe that stays above the
threshold, get_move answers the no-move sentinel, and each alphabeta
invocation consumes exactly one probe query — the single entry deadline
check — and returns the sentinel pair, so no recursive helper ever runs. -/
theorem claim_C8_nomoves_sentinel {G : Type} (api : GameApi G) (ev : G → Score)
    (thr : ℚ) (probe : Nat → ℚ) (g : G)
    (hmv : api.legalMoves g = []) (ha : AliveProbe thr probe) :
    getMoveAB api ev thr probe g = .inr noMove ∧
    ∀ (d t : Nat) (alpha beta : Score),
      alphabetaT api ev thr probe g (d + 1) alpha beta t =
        .ok (.inr (noMove, ⊥), t + 1) := by
  constructor
  · exact abIterGo_nomoves api ev thr probe g hmv (List.range' 1 499)
      (fun m hm => by have := List.mem_range'_1.mp hm; omega) 0
  · intro d t alpha beta
    exact alphabetaT_nomoves api ev thr probe g hmv d t alpha beta (ha t)

/-- Witness for C8 on the moveless game. -/
theorem claim_C8_witness :
    emptyApi.legalMoves () = [] ∧ AliveProbe 10 probeAlways ∧
    getMoveAB emptyApi ev42 10 probeAlways () = .inr noMove ∧
    alphabetaT emptyApi ev42 10 probeAlways () 1 ⊥ ⊤ 0 =
      .ok (.inr (noMove, ⊥), 1) := by
  have ha : AliveProbe 10 probeAlways := fun n => by norm_num [probeAlways]
  have h := claim_C8_nomoves_sentinel emptyApi ev42 10 probeAlways () rfl ha
  exact ⟨rfl, ha, h.1, h.2 0 0 ⊥ ⊤⟩

/-- C9: on a non-terminal state with the two players on the same cell,
custom_score_2 raises the division error instead of returning any score. -/
theorem claim_C9_zero_distance_error {G : Type} (api : GameApi G) (g : G)
    (p : PId) (hl : api.isLoser g p = false) (hw : api.isWinner g p = false)
    (hd : api.location g p = api.location g (opponentOf p)) :
    customScore2 api g p = .error .zeroDivision := by
  simp only [customScore2, hl, hw, Bool.false_eq_true, if_false, hd]
  simp

/-- Witness for C9 on the same-cell game. -/
theorem claim_C9_witness :
    samePosApi.isLoser () false = false ∧
    samePosApi.location () false = samePosApi.location () (opponentOf false) ∧
    customScore2 samePosApi () false = .error .zeroDivision :=
  ⟨rfl, rfl, claim_C9_zero_distance_error samePosApi () false rfl rfl rfl⟩

/-- C10: when the root has legal moves but every child backs up a score of
minus infinity, both searches keep the initial record and return the no-move
sentinel with root value minus infinity, since only a strict improvement over
minus infinity overwrites the record. -/
theorem claim_C10_all_losing_sentinel {G : Type} (api : GameApi G)
    (ev : G → Score) (g : G) (d : Nat) (_hne : api.legalMoves g ≠ [])
    (hall : ∀ mv ∈ api.legalMoves g,
      minValueP api ev d (api.forecast g mv) = ⊥) :
    mmSearchP api ev g (d + 1) = .inr (noMove, ⊥) ∧
    abSearchP api ev g (d + 1) ⊥ ⊤ = .inr (noMove, ⊥) := by
  have hmm : mmSearchP api ev g (d + 1) = .inr (noMove, ⊥) := by
    simp only [mmSearchP]
    rw [mmRootGoP_all_bot (fun g2 => minValueP api ev d g2) (api.forecast g)
      (api.legalMoves g) noMove hall]
  exact ⟨hmm, by rw [abSearchP_eq_mmSearchP]; exact hmm⟩

/-- Witness for C10 on the chain game in which every line of play loses. -/
theorem claim_C10_witness :
    loseApi.legalMoves 0 ≠ [] ∧
    (∀ mv ∈ loseApi.legalMoves 0,
      minValueP loseApi evBot 1 (loseApi.forecast 0 mv) = ⊥) ∧
    mmSearchP loseApi evBot 0 2 = .inr (noMove, ⊥) ∧
    abSearchP loseApi evBot 0 2 ⊥ ⊤ = .inr (noMove, ⊥) := by
  have h1 : loseApi.legalMoves 0 ≠ [] := by decide
  have h2 : ∀ mv ∈ loseApi.legalMoves 0,
      minValueP loseApi evBot 1 (loseApi.forecast 0 mv) = ⊥ := by decide
  have h := claim_C10_all_losing_sentinel loseApi evBot 0 1 h1 h2
  exact ⟨h1, h2, h.1, h.2⟩

/-- C5 counterexample: on a concrete non-terminal state the translated
custom_score differs from the heuristic as the claim words it, because the
second loop of the source credits the first level of the opponent lookahead
to the own total instead of the opponent total. -/
theorem claim_C5_counterexample :
    customScore cs5Api 0 false ≠ customScoreSpec cs5Api 0 false := by
  have hc : customScore cs5Api 0 false = sval ((1 : ℚ) - (1 : ℚ) * 1.5) := by
    simp [customScore, cs5Api, opponentOf]
  have hs : customScoreSpec cs5Api 0 false = sval ((0 : ℚ) - 1.5 * (2 : ℚ)) := by
    simp [customScoreSpec, cs5Api, opponentOf]
  rw [hc, hs]
  simp only [sval, ne_eq, WithBot.coe_inj, WithTop.coe_inj]
  norm_num

/-- C5 amended: on every non-terminal state custom_score returns own minus
1.5 times opp where own sums the own move count of the current state, of the
own immediate successors, of their successors two plies deep, and also the
opponent move count over the immediate successors of the opponent moves,
while opp sums the current opponent move count and only the second lookahead
level of the opponent. -/
theorem claim_C5_amended {G : Type} (api : GameApi G) (g : G) (p : PId)
    (hl : api.isLoser g p = false) (hw : api.isWinner g p = false) :
    customScore api g p =
      sval ((((api.legalMovesFor g p).length
        + ((api.legalMovesFor g p).map (fun mv =>
            (api.legalMovesFor (api.forecast g mv) p).length
            + ((api.legalMovesFor (api.forecast g mv) p).map (fun mv2 =>
                (api.legalMovesFor (api.forecast (api.forecast g mv) mv2)
                  p).length)).sum)).sum
        + ((api.legalMovesFor g (opponentOf p)).map (fun mv =>
            (api.legalMovesFor (api.forecast g mv) (opponentOf p)).length)).sum
          : ℕ) : ℚ)
        - (((api.legalMovesFor g (opponentOf p)).length
          + ((api.legalMovesFor g (opponentOf p)).map (fun mv =>
              ((api.legalMovesFor (api.forecast g mv) (opponentOf p)).map (fun mv2 =>
                  (api.legalMovesFor (api.forecast (api.forecast g mv) mv2)
                    (opponentOf p)).length)).sum)).sum : ℕ) : ℚ) * 1.5) := by
  simp only [customScore, hl, hw, Bool.false_eq_true, if_false]
  rw [foldl_add_sum2, foldl_pair_sum]

/-- Witness for the amended C5 on the concrete game, with the sums evaluated. -/
theorem claim_C5_witness :
    cs5Api.isLoser 0 false = false ∧ cs5Api.isWinner 0 false = false ∧
    customScore cs5Api 0 false = sval ((1 : ℚ) - (1 : ℚ) * 1.5) := by
  refine ⟨rfl, rfl, ?_⟩
  rw [claim_C5_amended cs5Api 0 false rfl rfl]
  simp [cs5Api, opponentOf]
